import Mathlib

/-!
Verification development for the chalkbox live-refresh core: the
DynamicProgress task registry (active/completed partitions, duration-sorted
completion ordering), the Table responsive expand policy, and the lazily
initialized default console singleton.
-/

namespace Chalkbox

/-- Modelled from the spec: the Task data model of spec section 3 (the
implementation module chalkbox/components/dynamic_progress.py is not among the
provided sources; only its tests and demo callers are). A unit of reported
progress: mutable label, optional numeric bound, progress counter, and a
creation timestamp at millisecond resolution. -/
structure Task where
  description : String
  total : Option Int
  completed : Int
  start_ms : Nat
deriving Repr, DecidableEq

/-- Modelled from the spec: an entry of the completed partition. The task id
is kept as a specification-level observer so partition claims can be stated;
finish_ms and duration_ms are the millisecond-resolution finish timestamp and
elapsed duration recorded exactly once at completion. -/
structure CompletedTask where
  id : Nat
  description : String
  finish_ms : Nat
  duration_ms : Nat
deriving Repr, DecidableEq

/-- Modelled from the spec: the two explicit error conditions of the task
registry, a RuntimeError for operating before the session started and a
ValueError for an unknown task id. -/
inductive DPError where
  | progressNotStarted : DPError
  | unknownTaskId : DPError
deriving Repr, DecidableEq

/-- Modelled from the spec: the DynamicProgress registry state. started
models whether the live session is open (context entered); next_id is the
monotonically increasing id counter (ids are never reused); tasks is the
active partition keyed by id in insertion order; completed_tasks is the
completed partition kept sorted ascending by duration_ms. removed_ids is a
history observer recording ids explicitly removed while active; the
operations only append to it and never read it. -/
structure DynamicProgress where
  started : Bool
  next_id : Nat
  tasks : List (Nat × Task)
  completed_tasks : List CompletedTask
  removed_ids : List Nat
deriving Repr, DecidableEq

/-- Modelled from the spec: a fresh registry before the session starts. -/
def DynamicProgress.init : DynamicProgress :=
  ⟨false, 0, [], [], []⟩

/-- Modelled from the spec: entering the live session. -/
def DynamicProgress.start (s : DynamicProgress) : DynamicProgress :=
  { s with started := true }

/-- Modelled from the spec: closing the live session. -/
def DynamicProgress.stop (s : DynamicProgress) : DynamicProgress :=
  { s with started := false }

/-- Association-list lookup of an active task by id. -/
def lookupTask : List (Nat × Task) → Nat → Option Task
  | [], _ => none
  | (i, t) :: rest, id => if i = id then some t else lookupTask rest id

/-- Remove every entry with the given id from the active list. -/
def eraseTask : List (Nat × Task) → Nat → List (Nat × Task)
  | [], _ => []
  | (i, t) :: rest, id =>
    if i = id then eraseTask rest id else (i, t) :: eraseTask rest id

/-- Replace the payload of the entry with the given id, keeping order. -/
def replaceTask : List (Nat × Task) → Nat → Task → List (Nat × Task)
  | [], _, _ => []
  | (i, t) :: rest, id, t2 =>
    if i = id then (i, t2) :: replaceTask rest id t2
    else (i, t) :: replaceTask rest id t2

/-- Modelled from the spec: stable insert-in-order into the completed list,
ascending by duration_ms; a newly completed task is placed after any earlier
task of equal duration (stable insertion, not a full re-sort). -/
def insertByDuration (c : CompletedTask) : List CompletedTask → List CompletedTask
  | [] => [c]
  | x :: xs =>
    if x.duration_ms ≤ c.duration_ms then x :: insertByDuration c xs
    else c :: x :: xs

/-- Modelled from the spec: apply the deltas/overrides of an update call to a
task: description and total are overridden when given; completed is set to
the explicit value when given, otherwise advanced by the advance delta. -/
def applyFields (t : Task) (advance completedArg totalArg : Option Int)
    (descArg : Option String) : Task :=
  { t with
    description := descArg.getD t.description
    total := match totalArg with
             | some v => some v
             | none => t.total
    completed := match completedArg with
                 | some c => c
                 | none => t.completed + advance.getD 0 }

/-- Modelled from the spec: a task transitions when its total is set and its
completed counter has reached it. -/
def shouldComplete (t : Task) : Bool :=
  match t.total with
  | some tot => decide (tot ≤ t.completed)
  | none => false

/-- Modelled from the spec: add_task requires the session to be running,
otherwise fails with the progress-not-started error; on success it allocates
the next stable id, captures the creation timestamp, and appends the task to
the active partition. -/
def DynamicProgress.add_task (s : DynamicProgress) (description : String)
    (total : Option Int) (now : Nat) : Except DPError (Nat × DynamicProgress) :=
  if s.started then
    .ok (s.next_id,
      { s with
        next_id := s.next_id + 1,
        tasks := s.tasks ++ [(s.next_id, ⟨description, total, 0, now⟩)] })
  else
    .error .progressNotStarted

/-- Modelled from the spec: update fails with the unknown-task error when the
id is not in the active partition (including when already completed). It
applies the given deltas/overrides; if afterwards completed has reached the
set total, the task transitions: the finish timestamp is captured, duration
is finish minus start, the task leaves the active partition and is inserted
into the completed partition at its sorted position. -/
def DynamicProgress.update (s : DynamicProgress) (id : Nat)
    (advance completedArg totalArg : Option Int) (descArg : Option String)
    (now : Nat) : Except DPError DynamicProgress :=
  match lookupTask s.tasks id with
  | none => .error .unknownTaskId
  | some t =>
    let t2 := applyFields t advance completedArg totalArg descArg
    if shouldComplete t2 then
      .ok { s with
            tasks := eraseTask s.tasks id,
            completed_tasks :=
              insertByDuration ⟨id, t2.description, now, now - t.start_ms⟩
                s.completed_tasks }
    else
      .ok { s with tasks := replaceTask s.tasks id t2 }

/-- Modelled from the spec: remove_task removes an active task without
completing it, and is a fail-soft no-op when the id is unknown or the task
has already completed. -/
def DynamicProgress.remove_task (s : DynamicProgress) (id : Nat) : DynamicProgress :=
  match lookupTask s.tasks id with
  | some _ =>
    { s with
      tasks := eraseTask s.tasks id,
      removed_ids := s.removed_ids ++ [id] }
  | none => s

/-- An observation trace: the registry operations a session may perform. -/
inductive DPOp where
  | start : DPOp
  | stop : DPOp
  | addTask (description : String) (total : Option Int) (now : Nat) : DPOp
  | update (id : Nat) (advance completedArg totalArg : Option Int)
      (descArg : Option String) (now : Nat) : DPOp
  | removeTask (id : Nat) : DPOp

/-- One operation applied to the registry; a failing call leaves the
registry state unchanged (the error propagates to the caller). -/
def DynamicProgress.step (s : DynamicProgress) : DPOp → DynamicProgress
  | .start => s.start
  | .stop => s.stop
  | .addTask d t now =>
    match s.add_task d t now with
    | .ok p => p.2
    | .error _ => s
  | .update id a c t d now =>
    match s.update id a c t d now with
    | .ok s2 => s2
    | .error _ => s
  | .removeTask id => s.remove_task id

/-- Run a whole trace of operations. -/
def DynamicProgress.run (s : DynamicProgress) (ops : List DPOp) : DynamicProgress :=
  ops.foldl DynamicProgress.step s

/-- The ids currently in the active partition. -/
def DynamicProgress.activeIds (s : DynamicProgress) : List Nat :=
  s.tasks.map Prod.fst

/-- The ids currently in the completed partition. -/
def DynamicProgress.completedIds (s : DynamicProgress) : List Nat :=
  s.completed_tasks.map CompletedTask.id

/-- Ascending-duration order on completed entries. -/
def durLE (a b : CompletedTask) : Prop := a.duration_ms ≤ b.duration_ms

instance : DecidableRel durLE := fun _ _ => Nat.decLe _ _

/-- Registry invariant: the three id collections are duplicate-free and
pairwise disjoint, together they are exactly the ids allocated so far, and
the completed partition is sorted ascending by duration. -/
def DynamicProgress.Inv (s : DynamicProgress) : Prop :=
  s.activeIds.Nodup ∧ s.completedIds.Nodup ∧ s.removed_ids.Nodup ∧
  (∀ id, ¬(id ∈ s.activeIds ∧ id ∈ s.completedIds)) ∧
  (∀ id, ¬(id ∈ s.activeIds ∧ id ∈ s.removed_ids)) ∧
  (∀ id, ¬(id ∈ s.completedIds ∧ id ∈ s.removed_ids)) ∧
  (∀ id, (id ∈ s.activeIds ∨ id ∈ s.completedIds ∨ id ∈ s.removed_ids) ↔ id < s.next_id) ∧
  s.completed_tasks.Pairwise durLE

/-- Modelled from the spec: the three responsive breakpoints of the Region
Composer / Table sizing policy (defaults: compact 60, medium 80, wide 81). -/
structure Breakpoints where
  compact : Nat
  medium : Nat
  wide : Nat
deriving Repr, DecidableEq

/-- Default breakpoints: compact below 60, medium 60 to 80, wide above 80. -/
def defaultBreakpoints : Breakpoints :=
  ⟨60, 80, 81⟩

/-- Modelled from the spec: the theme options that drive the Table expand
policy (chalkbox's theme module is not among the provided sources):
responsive mode flag, its breakpoints, and the column-count threshold
(default 5). -/
structure ThemeCfg where
  table_responsive_mode : Bool
  table_responsive_breakpoints : Breakpoints
  table_expand_threshold : Nat
deriving Repr, DecidableEq

/-- Default theme: responsive mode disabled, default breakpoints, column
threshold 5. -/
def defaultTheme : ThemeCfg :=
  ⟨false, defaultBreakpoints, 5⟩

/-- The expand setting of a table: auto, or an explicit boolean override. -/
inductive ExpandSetting where
  | auto : ExpandSetting
  | explicit (b : Bool) : ExpandSetting
deriving Repr, DecidableEq

/-- Modelled from the spec: the part of a Table the expand decision reads:
its headers (the column count) and its expand setting. naturalWidth stands
for the computed natural width of the content, an opaque measurement here. -/
structure Table where
  headers : List String
  expand : ExpandSetting
  naturalWidth : Nat
deriving Repr, DecidableEq

/-- The result of the expand calculation: a boolean decision, or a concrete
target width in the responsive medium range. -/
inductive ExpandResult where
  | bool (b : Bool) : ExpandResult
  | width (w : Nat) : ExpandResult
deriving Repr, DecidableEq

/-- Modelled from the spec: Table._calculate_expand. An explicit boolean
expand setting always wins. Otherwise, with responsive mode off, expand iff
the column count reaches the threshold. With responsive mode on: below the
compact breakpoint never expand; between compact and medium, a table at or
above the column threshold gets the target width
min(natural width, console width - 4); above the medium breakpoint the plain
column-count threshold rule applies. -/
def calculate_expand (theme : ThemeCfg) (consoleWidth : Nat) (t : Table) :
    ExpandResult :=
  match t.expand with
  | .explicit b => .bool b
  | .auto =>
    let cols := t.headers.length
    if theme.table_responsive_mode then
      let bp := theme.table_responsive_breakpoints
      if consoleWidth < bp.compact then
        .bool false
      else if consoleWidth ≤ bp.medium then
        if theme.table_expand_threshold ≤ cols then
          .width (min t.naturalWidth (consoleWidth - 4))
        else
          .bool false
      else
        .bool (decide (theme.table_expand_threshold ≤ cols))
    else
      .bool (decide (theme.table_expand_threshold ≤ cols))

/-- Modelled from the spec: the keyword arguments a console can be created
with (only the ones the tests exercise matter to behavior here). -/
structure ConsoleKwargs where
  force_terminal : Option Bool
deriving Repr, DecidableEq

/-- Modelled from the spec: one console instance. The id field models
object identity (two instances created at different times are distinct
objects); kwargs records the creation arguments it honoured. -/
structure ConsoleInst where
  id : Nat
  kwargs : ConsoleKwargs
deriving Repr, DecidableEq

/-- Modelled from the spec: the module-level singleton cell behind
get_console/reset_console: the current instance, if initialized, and a
freshness counter supplying identities for newly created instances. -/
structure ConsoleState where
  current : Option ConsoleInst
  fresh : Nat
deriving Repr, DecidableEq

/-- The state before any console has been requested. -/
def ConsoleState.init : ConsoleState :=
  ⟨none, 0⟩

/-- Modelled from the spec: get_console returns the current singleton if it
exists (ignoring the supplied kwargs), and otherwise lazily creates one from
the supplied kwargs and stores it. -/
def get_console (kw : ConsoleKwargs) (s : ConsoleState) :
    ConsoleInst × ConsoleState :=
  match s.current with
  | some c => (c, s)
  | none =>
    let c : ConsoleInst := ⟨s.fresh, kw⟩
    (c, ⟨some c, s.fresh + 1⟩)

/-- Modelled from the spec: reset_console clears the singleton so the next
get_console creates a fresh instance. -/
def reset_console (s : ConsoleState) : ConsoleState :=
  ⟨none, s.fresh⟩

/-! ### Helper lemmas about the association-list operations -/

theorem lookupTask_cons (i : Nat) (t : Task) (rest : List (Nat × Task))
    (id : Nat) :
    lookupTask ((i, t) :: rest) id =
      if i = id then some t else lookupTask rest id := rfl

theorem eraseTask_cons (i : Nat) (t : Task) (rest : List (Nat × Task))
    (id : Nat) :
    eraseTask ((i, t) :: rest) id =
      if i = id then eraseTask rest id else (i, t) :: eraseTask rest id := rfl

theorem replaceTask_cons (i : Nat) (t : Task) (rest : List (Nat × Task))
    (id : Nat) (t2 : Task) :
    replaceTask ((i, t) :: rest) id t2 =
      if i = id then (i, t2) :: replaceTask rest id t2
      else (i, t) :: replaceTask rest id t2 := rfl

theorem insertByDuration_cons (c x : CompletedTask) (xs : List CompletedTask) :
    insertByDuration c (x :: xs) =
      if x.duration_ms ≤ c.duration_ms then x :: insertByDuration c xs
      else c :: x :: xs := rfl

theorem lookupTask_eq_none {ts : List (Nat × Task)} {id : Nat} :
    lookupTask ts id = none ↔ id ∉ ts.map Prod.fst := by
  induction ts with
  | nil => simp [lookupTask]
  | cons p rest ih =>
    obtain ⟨i, t⟩ := p
    rw [lookupTask_cons]
    by_cases h : i = id
    · subst h
      simp
    · simp only [if_neg h, List.map_cons, List.mem_cons, ih]
      constructor
      · intro hn hor
        rcases hor with hid | hmem
        · exact h hid.symm
        · exact hn hmem
      · intro hn hmem
        exact hn (Or.inr hmem)

theorem lookupTask_some_mem {ts : List (Nat × Task)} {id : Nat} {t : Task}
    (h : lookupTask ts id = some t) : id ∈ ts.map Prod.fst := by
  by_contra hmem
  rw [← lookupTask_eq_none] at hmem
  rw [hmem] at h
  exact Option.noConfusion h

theorem mem_map_fst_eraseTask {ts : List (Nat × Task)} {id j : Nat} :
    j ∈ (eraseTask ts id).map Prod.fst ↔ j ∈ ts.map Prod.fst ∧ j ≠ id := by
  induction ts with
  | nil => simp [eraseTask]
  | cons p rest ih =>
    obtain ⟨i, t⟩ := p
    rw [eraseTask_cons]
    by_cases h : i = id
    · subst h
      rw [if_pos rfl]
      simp only [ih, List.map_cons, List.mem_cons]
      constructor
      · intro ⟨hmem, hne⟩
        exact ⟨Or.inr hmem, hne⟩
      · intro ⟨hor, hne⟩
        rcases hor with hid | hmem
        · exact absurd hid hne
        · exact ⟨hmem, hne⟩
    · rw [if_neg h]
      simp only [List.map_cons, List.mem_cons, ih]
      constructor
      · intro hor
        rcases hor with hid | ⟨hmem, hne⟩
        · subst hid
          exact ⟨Or.inl rfl, fun hji => h hji⟩
        · exact ⟨Or.inr hmem, hne⟩
      · intro ⟨hor, hne⟩
        rcases hor with hid | hmem
        · exact Or.inl hid
        · exact Or.inr ⟨hmem, hne⟩

theorem nodup_map_fst_eraseTask {ts : List (Nat × Task)} {id : Nat}
    (h : (ts.map Prod.fst).Nodup) : ((eraseTask ts id).map Prod.fst).Nodup := by
  induction ts with
  | nil => simp [eraseTask]
  | cons p rest ih =>
    obtain ⟨i, t⟩ := p
    simp only [List.map_cons, List.nodup_cons] at h
    obtain ⟨hnotin, hrest⟩ := h
    rw [eraseTask_cons]
    by_cases hcase : i = id
    · rw [if_pos hcase]
      exact ih hrest
    · rw [if_neg hcase]
      simp only [List.map_cons, List.nodup_cons]
      refine ⟨fun hmem => ?_, ih hrest⟩
      exact hnotin (mem_map_fst_eraseTask.mp hmem).1

theorem map_fst_replaceTask {ts : List (Nat × Task)} {id : Nat} {t2 : Task} :
    (replaceTask ts id t2).map Prod.fst = ts.map Prod.fst := by
  induction ts with
  | nil => simp [replaceTask]
  | cons p rest ih =>
    obtain ⟨i, t⟩ := p
    rw [replaceTask_cons]
    by_cases h : i = id
    · rw [if_pos h]
      simp [ih]
    · rw [if_neg h]
      simp [ih]

theorem lookupTask_replaceTask_self {ts : List (Nat × Task)} {id : Nat}
    {t0 t2 : Task} (h : lookupTask ts id = some t0) :
    lookupTask (replaceTask ts id t2) id = some t2 := by
  induction ts with
  | nil => exact absurd h (by simp [lookupTask])
  | cons p rest ih =>
    obtain ⟨i, t⟩ := p
    rw [replaceTask_cons]
    by_cases hcase : i = id
    · rw [if_pos hcase, lookupTask_cons, if_pos hcase]
    · rw [lookupTask_cons, if_neg hcase] at h
      rw [if_neg hcase, lookupTask_cons, if_neg hcase]
      exact ih h

theorem lookupTask_replaceTask_ne {ts : List (Nat × Task)} {id j : Nat}
    {t2 : Task} (h : j ≠ id) :
    lookupTask (replaceTask ts id t2) j = lookupTask ts j := by
  induction ts with
  | nil => simp [replaceTask]
  | cons p rest ih =>
    obtain ⟨i, t⟩ := p
    rw [replaceTask_cons]
    by_cases hcase : i = id
    · have hne : i ≠ j := fun hij => h (hij.symm.trans hcase)
      rw [if_pos hcase, lookupTask_cons, if_neg hne, lookupTask_cons,
        if_neg hne]
      exact ih
    · rw [if_neg hcase, lookupTask_cons, lookupTask_cons]
      by_cases hij : i = j
      · rw [if_pos hij, if_pos hij]
      · rw [if_neg hij, if_neg hij]
        exact ih

/-! ### Helper lemmas about sorted insertion into the completed list -/

theorem insertByDuration_perm (c : CompletedTask) (l : List CompletedTask) :
    List.Perm (insertByDuration c l) (c :: l) := by
  induction l with
  | nil => exact List.Perm.refl _
  | cons x xs ih =>
    rw [insertByDuration_cons]
    by_cases h : x.duration_ms ≤ c.duration_ms
    · rw [if_pos h]
      exact (ih.cons x).trans (List.Perm.swap c x xs)
    · rw [if_neg h]

theorem mem_insertByDuration {c x : CompletedTask} {l : List CompletedTask} :
    x ∈ insertByDuration c l ↔ x = c ∨ x ∈ l := by
  rw [(insertByDuration_perm c l).mem_iff]
  simp

theorem insertByDuration_pairwise {c : CompletedTask} {l : List CompletedTask}
    (h : l.Pairwise durLE) : (insertByDuration c l).Pairwise durLE := by
  induction l with
  | nil => simp [insertByDuration, durLE]
  | cons x xs ih =>
    rw [List.pairwise_cons] at h
    obtain ⟨hx, hxs⟩ := h
    rw [insertByDuration_cons]
    by_cases hle : x.duration_ms ≤ c.duration_ms
    · rw [if_pos hle, List.pairwise_cons]
      refine ⟨fun y hy => ?_, ih hxs⟩
      rcases mem_insertByDuration.mp hy with rfl | hy2
      · exact hle
      · exact hx y hy2
    · rw [if_neg hle, List.pairwise_cons]
      push_neg at hle
      refine ⟨fun y hy => ?_, List.pairwise_cons.mpr ⟨hx, hxs⟩⟩
      rcases List.mem_cons.mp hy with rfl | hy2
      · exact le_of_lt hle
      · exact le_trans (le_of_lt hle) (hx y hy2)

theorem map_id_insertByDuration (c : CompletedTask) (l : List CompletedTask) :
    List.Perm ((insertByDuration c l).map CompletedTask.id)
      (c.id :: l.map CompletedTask.id) := by
  have hp := (insertByDuration_perm c l).map CompletedTask.id
  simpa using hp

theorem mem_map_id_insertByDuration {c : CompletedTask}
    {l : List CompletedTask} {j : Nat} :
    j ∈ (insertByDuration c l).map CompletedTask.id ↔
      j = c.id ∨ j ∈ l.map CompletedTask.id := by
  rw [(map_id_insertByDuration c l).mem_iff]
  simp

/-! ### The registry invariant is preserved by every operation -/

theorem inv_init : DynamicProgress.init.Inv := by
  refine ⟨?_, ?_, ?_, ?_, ?_, ?_, ?_, ?_⟩ <;>
    simp [DynamicProgress.init, DynamicProgress.activeIds,
      DynamicProgress.completedIds]

theorem inv_start {s : DynamicProgress} (h : s.Inv) : s.start.Inv := h

theorem inv_stop {s : DynamicProgress} (h : s.Inv) : s.stop.Inv := h

theorem next_id_not_tracked {s : DynamicProgress} (h : s.Inv) :
    s.next_id ∉ s.activeIds ∧ s.next_id ∉ s.completedIds ∧
      s.next_id ∉ s.removed_ids := by
  obtain ⟨-, -, -, -, -, -, h7, -⟩ := h
  refine ⟨fun hm => ?_, fun hm => ?_, fun hm => ?_⟩ <;>
    exact absurd ((h7 s.next_id).mp (by tauto)) (lt_irrefl _)

theorem inv_addTask {s : DynamicProgress} (h : s.Inv) (d : String)
    (t : Option Int) (now : Nat) : (s.step (.addTask d t now)).Inv := by
  by_cases hs : s.started
  · have hstep : s.step (.addTask d t now) =
        { s with
          next_id := s.next_id + 1,
          tasks := s.tasks ++ [(s.next_id, ⟨d, t, 0, now⟩)] } := by
      simp [DynamicProgress.step, DynamicProgress.add_task, hs]
    obtain ⟨hn1, hn2, hn3⟩ := next_id_not_tracked h
    obtain ⟨h1, h2, h3, h4, h5, h6, h7, h8⟩ := h
    rw [hstep]
    have hact : ({ s with
          next_id := s.next_id + 1,
          tasks := s.tasks ++ [(s.next_id, ⟨d, t, 0, now⟩)] } :
        DynamicProgress).activeIds = s.activeIds ++ [s.next_id] := by
      simp [DynamicProgress.activeIds]
    refine ⟨?_, h2, h3, ?_, ?_, h6, ?_, h8⟩
    · rw [hact]
      exact h1.append (List.nodup_singleton _)
        (by simp [List.Disjoint]; intro a ha hef; exact hn1 (hef ▸ ha))
    · intro j hj
      rw [hact] at hj
      obtain ⟨hjmem, hjc⟩ := hj
      rcases List.mem_append.mp hjmem with hja | hjn
      · exact h4 j ⟨hja, hjc⟩
      · rw [List.mem_singleton.mp hjn] at hjc
        exact hn2 hjc
    · intro j hj
      rw [hact] at hj
      obtain ⟨hjmem, hjr⟩ := hj
      rcases List.mem_append.mp hjmem with hja | hjn
      · exact h5 j ⟨hja, hjr⟩
      · rw [List.mem_singleton.mp hjn] at hjr
        exact hn3 hjr
    · intro j
      rw [hact]
      simp only [List.mem_append, List.mem_singleton]
      constructor
      · intro hj
        rcases hj with (hja | hjn) | hjc | hjr
        · exact Nat.lt_succ_of_lt ((h7 j).mp (Or.inl hja))
        · exact hjn ▸ Nat.lt_succ_self _
        · exact Nat.lt_succ_of_lt ((h7 j).mp (Or.inr (Or.inl hjc)))
        · exact Nat.lt_succ_of_lt ((h7 j).mp (Or.inr (Or.inr hjr)))
      · intro hj
        rcases Nat.lt_succ_iff_lt_or_eq.mp hj with hlt | heq
        · rcases (h7 j).mpr hlt with hja | hrest
          · exact Or.inl (Or.inl hja)
          · exact Or.inr hrest
        · exact Or.inl (Or.inr heq)
  · have hstep : s.step (.addTask d t now) = s := by
      simp [DynamicProgress.step, DynamicProgress.add_task, hs]
    rw [hstep]
    exact h

theorem inv_update {s : DynamicProgress} (h : s.Inv) (id : Nat)
    (a c t : Option Int) (d : Option String) (now : Nat) :
    (s.step (.update id a c t d now)).Inv := by
  obtain ⟨h1, h2, h3, h4, h5, h6, h7, h8⟩ := h
  match hl : lookupTask s.tasks id with
  | none =>
    have hstep : s.step (.update id a c t d now) = s := by
      simp [DynamicProgress.step, DynamicProgress.update, hl]
    rw [hstep]
    exact ⟨h1, h2, h3, h4, h5, h6, h7, h8⟩
  | some t0 =>
    have hmem : id ∈ s.activeIds := lookupTask_some_mem hl
    by_cases hsc : shouldComplete (applyFields t0 a c t d) = true
    · have hstep : s.step (.update id a c t d now) =
          { s with
            tasks := eraseTask s.tasks id,
            completed_tasks :=
              insertByDuration
                ⟨id, (applyFields t0 a c t d).description, now,
                  now - t0.start_ms⟩ s.completed_tasks } := by
        simp [DynamicProgress.step, DynamicProgress.update, hl, hsc]
      rw [hstep]
      set e : CompletedTask :=
        ⟨id, (applyFields t0 a c t d).description, now, now - t0.start_ms⟩
          with he
      have hidc : id ∉ s.completedIds := fun hc => h4 id ⟨hmem, hc⟩
      have hidr : id ∉ s.removed_ids := fun hr => h5 id ⟨hmem, hr⟩
      have hact : ∀ j, j ∈ (eraseTask s.tasks id).map Prod.fst ↔
          j ∈ s.activeIds ∧ j ≠ id := fun j => mem_map_fst_eraseTask
      have hcomp : ∀ j, j ∈ (insertByDuration e s.completed_tasks).map
          CompletedTask.id ↔ j = id ∨ j ∈ s.completedIds := by
        intro j
        exact mem_map_id_insertByDuration
      refine ⟨?_, ?_, h3, ?_, ?_, ?_, ?_, ?_⟩
      · exact nodup_map_fst_eraseTask h1
      · show (List.map CompletedTask.id
            (insertByDuration e s.completed_tasks)).Nodup
        have hperm := map_id_insertByDuration e s.completed_tasks
        rw [hperm.nodup_iff]
        exact List.nodup_cons.mpr ⟨hidc, h2⟩
      · intro j hj
        obtain ⟨hja, hjc⟩ := hj
        obtain ⟨hja2, hjne⟩ := (hact j).mp hja
        rcases (hcomp j).mp hjc with hjid | hjc2
        · exact hjne hjid
        · exact h4 j ⟨hja2, hjc2⟩
      · intro j hj
        obtain ⟨hja, hjr⟩ := hj
        exact h5 j ⟨((hact j).mp hja).1, hjr⟩
      · intro j hj
        obtain ⟨hjc, hjr⟩ := hj
        rcases (hcomp j).mp hjc with hjid | hjc2
        · exact hidr (hjid ▸ hjr)
        · exact h6 j ⟨hjc2, hjr⟩
      · intro j
        have hiff := h7 j
        constructor
        · intro hj
          rcases hj with hja | hjc | hjr
          · exact hiff.mp (Or.inl ((hact j).mp hja).1)
          · rcases (hcomp j).mp hjc with hjid | hjc2
            · exact hiff.mp (Or.inl (hjid ▸ hmem))
            · exact hiff.mp (Or.inr (Or.inl hjc2))
          · exact hiff.mp (Or.inr (Or.inr hjr))
        · intro hj
          by_cases hjid : j = id
          · exact Or.inr (Or.inl ((hcomp j).mpr (Or.inl hjid)))
          · rcases hiff.mpr hj with hja | hjc | hjr
            · exact Or.inl ((hact j).mpr ⟨hja, hjid⟩)
            · exact Or.inr (Or.inl ((hcomp j).mpr (Or.inr hjc)))
            · exact Or.inr (Or.inr hjr)
      · exact insertByDuration_pairwise h8
    · have hstep : s.step (.update id a c t d now) =
          { s with tasks := replaceTask s.tasks id (applyFields t0 a c t d) } := by
        simp [DynamicProgress.step, DynamicProgress.update, hl, hsc]
      rw [hstep]
      have hact : ({ s with
            tasks := replaceTask s.tasks id (applyFields t0 a c t d) } :
          DynamicProgress).activeIds = s.activeIds := map_fst_replaceTask
      refine ⟨?_, h2, h3, ?_, ?_, h6, ?_, h8⟩
      · rw [hact]; exact h1
      · intro j; rw [hact]; exact h4 j
      · intro j; rw [hact]; exact h5 j
      · intro j; rw [hact]; exact h7 j

theorem inv_removeTask {s : DynamicProgress} (h : s.Inv) (id : Nat) :
    (s.step (.removeTask id)).Inv := by
  obtain ⟨h1, h2, h3, h4, h5, h6, h7, h8⟩ := h
  match hl : lookupTask s.tasks id with
  | none =>
    have hstep : s.step (.removeTask id) = s := by
      simp [DynamicProgress.step, DynamicProgress.remove_task, hl]
    rw [hstep]
    exact ⟨h1, h2, h3, h4, h5, h6, h7, h8⟩
  | some t0 =>
    have hmem : id ∈ s.activeIds := lookupTask_some_mem hl
    have hidc : id ∉ s.completedIds := fun hc => h4 id ⟨hmem, hc⟩
    have hidr : id ∉ s.removed_ids := fun hr => h5 id ⟨hmem, hr⟩
    have hstep : s.step (.removeTask id) =
        { s with
          tasks := eraseTask s.tasks id,
          removed_ids := s.removed_ids ++ [id] } := by
      simp [DynamicProgress.step, DynamicProgress.remove_task, hl]
    rw [hstep]
    have hact : ∀ j, j ∈ (eraseTask s.tasks id).map Prod.fst ↔
        j ∈ s.activeIds ∧ j ≠ id := fun j => mem_map_fst_eraseTask
    refine ⟨?_, h2, ?_, ?_, ?_, ?_, ?_, h8⟩
    · exact nodup_map_fst_eraseTask h1
    · exact h3.append (List.nodup_singleton _)
        (by simp [List.Disjoint]; intro a ha hef; exact hidr (hef ▸ ha))
    · intro j hj
      obtain ⟨hja, hjc⟩ := hj
      exact h4 j ⟨((hact j).mp hja).1, hjc⟩
    · intro j hj
      obtain ⟨hja, hjr⟩ := hj
      obtain ⟨hja2, hjne⟩ := (hact j).mp hja
      rcases List.mem_append.mp hjr with hjr2 | hjn
      · exact h5 j ⟨hja2, hjr2⟩
      · exact hjne (List.mem_singleton.mp hjn)
    · intro j hj
      obtain ⟨hjc, hjr⟩ := hj
      rcases List.mem_append.mp hjr with hjr2 | hjn
      · exact h6 j ⟨hjc, hjr2⟩
      · exact hidc ((List.mem_singleton.mp hjn) ▸ hjc)
    · intro j
      have hiff := h7 j
      simp only [List.mem_append, List.mem_singleton]
      constructor
      · intro hj
        rcases hj with hja | hjc | hjr2 | hjn
        · exact hiff.mp (Or.inl ((hact j).mp hja).1)
        · exact hiff.mp (Or.inr (Or.inl hjc))
        · exact hiff.mp (Or.inr (Or.inr hjr2))
        · exact hiff.mp (Or.inl (hjn ▸ hmem))
      · intro hj
        by_cases hjid : j = id
        · exact Or.inr (Or.inr (Or.inr hjid))
        · rcases hiff.mpr hj with hja | hjc | hjr2
          · exact Or.inl ((hact j).mpr ⟨hja, hjid⟩)
          · exact Or.inr (Or.inl hjc)
          · exact Or.inr (Or.inr (Or.inl hjr2))

theorem inv_step {s : DynamicProgress} (h : s.Inv) (op : DPOp) :
    (s.step op).Inv := by
  match op with
  | .start => exact inv_start h
  | .stop => exact inv_stop h
  | .addTask d t now => exact inv_addTask h d t now
  | .update id a c t d now => exact inv_update h id a c t d now
  | .removeTask id => exact inv_removeTask h id

theorem inv_run {s : DynamicProgress} (h : s.Inv) (ops : List DPOp) :
    (s.run ops).Inv := by
  induction ops generalizing s with
  | nil => exact h
  | cons op rest ih => exact ih (inv_step h op)

/-! ### Claim theorems -/

/-- C1: At every observation point of any session trace starting from the
fresh registry, the completed-tasks list is sorted ascending by duration:
whenever entry A appears before entry B in the list,
A.duration_ms ≤ B.duration_ms. Durations are kept at millisecond resolution,
so tasks completing within the same wall-clock second are still ordered by
their relative millisecond offsets. -/
theorem C1_completed_sorted_by_duration (ops : List DPOp) :
    (DynamicProgress.init.run ops).completed_tasks.Pairwise durLE :=
  (inv_run inv_init ops).2.2.2.2.2.2.2

/-- C2 counterexample: after start, add_task (id 0, total 1) and remove_task 0,
the id 0 was created in the session (next_id = 1) yet belongs to neither the
active nor the completed partition, so the union of the two partitions' ids
does not equal the set of all ever-created ids. -/
theorem C2_partition_union_counterexample :
    (DynamicProgress.init.run
        [DPOp.start, DPOp.addTask "t" (some 1) 0, DPOp.removeTask 0]).next_id
        = 1 ∧
      0 ∉ (DynamicProgress.init.run
        [DPOp.start, DPOp.addTask "t" (some 1) 0,
          DPOp.removeTask 0]).activeIds ∧
      0 ∉ (DynamicProgress.init.run
        [DPOp.start, DPOp.addTask "t" (some 1) 0,
          DPOp.removeTask 0]).completedIds := by
  refine ⟨rfl, ?_, ?_⟩ <;> decide

/-- C2 (amended): at every observation instant a task is in at most one of
the active and completed partitions (never both), and the union of the two
partitions' ids equals the set of all ids ever created in the session minus
the ids explicitly removed while active via remove_task. -/
theorem C2_partition_exclusivity_amended (ops : List DPOp) :
    (∀ id, ¬(id ∈ (DynamicProgress.init.run ops).activeIds ∧
        id ∈ (DynamicProgress.init.run ops).completedIds)) ∧
      (∀ id, (id ∈ (DynamicProgress.init.run ops).activeIds ∨
          id ∈ (DynamicProgress.init.run ops).completedIds) ↔
        (id < (DynamicProgress.init.run ops).next_id ∧
          id ∉ (DynamicProgress.init.run ops).removed_ids)) := by
  obtain ⟨h1, h2, h3, h4, h5, h6, h7, h8⟩ := inv_run inv_init ops
  refine ⟨h4, fun id => ⟨fun hj => ?_, fun hj => ?_⟩⟩
  · have hlt := (h7 id).mp (by tauto)
    refine ⟨hlt, fun hr => ?_⟩
    rcases hj with hja | hjc
    · exact h5 id ⟨hja, hr⟩
    · exact h6 id ⟨hjc, hr⟩
  · obtain ⟨hlt, hnr⟩ := hj
    rcases (h7 id).mpr hlt with hja | hjc | hjr
    · exact Or.inl hja
    · exact Or.inr hjc
    · exact absurd hjr hnr

/-- C2 witness: the amended theorem applied to a concrete two-operation
trace: id 0 is not in both partitions at once. -/
theorem C2_partition_exclusivity_amended_witness :
    ¬(0 ∈ (DynamicProgress.init.run
        [DPOp.start, DPOp.addTask "t" (some 1) 0]).activeIds ∧
      0 ∈ (DynamicProgress.init.run
        [DPOp.start, DPOp.addTask "t" (some 1) 0]).completedIds) :=
  (C2_partition_exclusivity_amended
    [DPOp.start, DPOp.addTask "t" (some 1) 0]).1 0

/-- C3: applying update to an active task whose resulting total is set and
reached makes the task transition exactly once: the call succeeds, the task
leaves the active partition (the other actives are kept in order), a
completed entry for it carries finish_ms = now and
duration_ms = now - start_ms, its id occurs exactly once in the completed
partition, the new entry is placed by sorted insertion, and the completed
list stays sorted ascending by duration. -/
theorem C3_completion_transition (s : DynamicProgress) (id : Nat) (t0 : Task)
    (a c ta : Option Int) (d : Option String) (now : Nat)
    (hl : lookupTask s.tasks id = some t0)
    (hsc : shouldComplete (applyFields t0 a c ta d) = true)
    (hidc : id ∉ s.completedIds)
    (hsorted : s.completed_tasks.Pairwise durLE) :
    ∃ s2, s.update id a c ta d now = .ok s2 ∧
      s2.tasks = eraseTask s.tasks id ∧
      id ∉ s2.activeIds ∧
      s2.completed_tasks =
        insertByDuration
          ⟨id, (applyFields t0 a c ta d).description, now, now - t0.start_ms⟩
          s.completed_tasks ∧
      (∃ e, e ∈ s2.completed_tasks ∧ e.id = id ∧ e.finish_ms = now ∧
        e.duration_ms = now - t0.start_ms) ∧
      s2.completedIds.count id = 1 ∧
      s2.completed_tasks.Pairwise durLE := by
  have hupd : s.update id a c ta d now = .ok
      { s with
        tasks := eraseTask s.tasks id,
        completed_tasks :=
          insertByDuration
            ⟨id, (applyFields t0 a c ta d).description, now, now - t0.start_ms⟩
            s.completed_tasks } := by
    simp [DynamicProgress.update, hl, hsc]
  refine ⟨_, hupd, rfl, ?_, rfl, ?_, ?_, ?_⟩
  · intro hmem
    exact (mem_map_fst_eraseTask.mp hmem).2 rfl
  · exact ⟨_, mem_insertByDuration.mpr (Or.inl rfl), rfl, rfl, rfl⟩
  · show (List.map CompletedTask.id
      (insertByDuration
        ⟨id, (applyFields t0 a c ta d).description, now, now - t0.start_ms⟩
        s.completed_tasks)).count id = 1
    have hperm := map_id_insertByDuration
      ⟨id, (applyFields t0 a c ta d).description, now, now - t0.start_ms⟩
      s.completed_tasks
    have h0 : (s.completed_tasks.map CompletedTask.id).count id = 0 :=
      List.count_eq_zero.mpr hidc
    rw [hperm.count_eq]
    simp [List.count_cons, h0]
  · exact insertByDuration_pairwise hsorted

/-- C3 witness: a concrete completion: one task (id 0, total 10, created at
time 0) is completed at time 5; the call succeeds, the task leaves the
active partition and its id appears exactly once in the completed list. -/
theorem C3_completion_transition_witness :
    ∃ s2, (DynamicProgress.init.run
        [DPOp.start, DPOp.addTask "a" (some 10) 0]).update 0 none (some 10)
        none none 5 = Except.ok s2 ∧ 0 ∉ s2.activeIds ∧
      s2.completedIds.count 0 = 1 := by
  obtain ⟨s2, hok, -, hact, -, -, hcount, -⟩ :=
    C3_completion_transition
      (DynamicProgress.init.run [DPOp.start, DPOp.addTask "a" (some 10) 0]) 0
      ⟨"a", some 10, 0, 0⟩ none (some 10) none none 5 (by decide) (by decide)
      (by decide) (by exact List.Pairwise.nil)
  exact ⟨s2, hok, hact, hcount⟩

/-- C4: update called with an id that is not in the active partition — in
particular an id never returned by add_task, or an id whose task already
completed (in any state satisfying the registry invariant) — always fails
with the unknown-task error, and as an operation it leaves the registry
state unchanged. -/
theorem C4_update_unknown_fails (s : DynamicProgress) (id : Nat)
    (a c t : Option Int) (d : Option String) (now : Nat)
    (h : id ∉ s.activeIds ∨ (s.Inv ∧ id ∈ s.completedIds)) :
    s.update id a c t d now = .error .unknownTaskId ∧
      s.step (.update id a c t d now) = s := by
  have hna : id ∉ s.activeIds := by
    rcases h with hna | ⟨hinv, hc⟩
    · exact hna
    · exact fun ha => hinv.2.2.2.1 id ⟨ha, hc⟩
  have hl : lookupTask s.tasks id = none := lookupTask_eq_none.mpr hna
  constructor
  · simp [DynamicProgress.update, hl]
  · simp [DynamicProgress.step, DynamicProgress.update, hl]

/-- C4 witness: updating the never-allocated id 999 in a freshly started
session fails with the unknown-task error and changes nothing. -/
theorem C4_update_unknown_fails_witness :
    (DynamicProgress.init.run [DPOp.start]).update 999 (some 10) none none
        none 0 = Except.error DPError.unknownTaskId ∧
      (DynamicProgress.init.run [DPOp.start]).step
        (DPOp.update 999 (some 10) none none none 0) =
        DynamicProgress.init.run [DPOp.start] :=
  C4_update_unknown_fails (DynamicProgress.init.run [DPOp.start]) 999
    (some 10) none none none 0 (Or.inl (by decide))

/-- C5: add_task on a registry whose session is not running (never started,
or closed again) always fails with the session-not-started error, and as an
operation it creates no task and leaves the registry state unchanged. -/
theorem C5_add_task_requires_session (s : DynamicProgress) (d : String)
    (t : Option Int) (now : Nat) (h : s.started = false) :
    s.add_task d t now = .error .progressNotStarted ∧
      s.step (.addTask d t now) = s := by
  constructor
  · simp [DynamicProgress.add_task, h]
  · simp [DynamicProgress.step, DynamicProgress.add_task, h]

/-- C5 witness: add_task fails on the fresh registry (session never
started) and on a registry whose session was started and then closed. -/
theorem C5_add_task_requires_session_witness :
    DynamicProgress.init.add_task "x" (some 1) 0 =
        Except.error DPError.progressNotStarted ∧
      (DynamicProgress.init.run [DPOp.start, DPOp.stop]).add_task "x" none 3 =
        Except.error DPError.progressNotStarted :=
  ⟨(C5_add_task_requires_session DynamicProgress.init "x" (some 1) 0 rfl).1,
    (C5_add_task_requires_session
      (DynamicProgress.init.run [DPOp.start, DPOp.stop]) "x" none 3
      (by decide)).1⟩

/-- C6: remove_task removes an active task without completing it — the
completed list is never touched, the id is absent from the active partition
afterwards, and (under the registry invariant) it is absent from the
completed partition too, so the task is in neither partition — and it is a
no-op, raising no error and changing no state, when the id is unknown or the
task has already completed. -/
theorem C6_remove_task_spec (s : DynamicProgress) (id : Nat) :
    (s.remove_task id).completed_tasks = s.completed_tasks ∧
      id ∉ (s.remove_task id).activeIds ∧
      (id ∈ s.activeIds → (s.remove_task id).tasks = eraseTask s.tasks id) ∧
      (id ∉ s.activeIds → s.remove_task id = s) ∧
      (s.Inv → id ∈ s.completedIds → s.remove_task id = s) ∧
      (s.Inv → id ∈ s.activeIds →
        id ∉ (s.remove_task id).completedIds) := by
  match hl : lookupTask s.tasks id with
  | none =>
    have hs : s.remove_task id = s := by
      simp [DynamicProgress.remove_task, hl]
    have hna : id ∉ s.activeIds := lookupTask_eq_none.mp hl
    rw [hs]
    exact ⟨rfl, hna, fun hmem => absurd hmem hna, fun _ => rfl,
      fun _ _ => rfl, fun hinv hmem => absurd hmem hna⟩
  | some t0 =>
    have hs : s.remove_task id =
        { s with
          tasks := eraseTask s.tasks id,
          removed_ids := s.removed_ids ++ [id] } := by
      simp [DynamicProgress.remove_task, hl]
    have hmem : id ∈ s.activeIds := lookupTask_some_mem hl
    rw [hs]
    refine ⟨rfl, ?_, fun _ => rfl, fun hna => absurd hmem hna,
      fun hinv hc => absurd ⟨hmem, hc⟩ (hinv.2.2.2.1 id),
      fun hinv _ => fun hc => hinv.2.2.2.1 id ⟨hmem, hc⟩⟩
    intro hm
    exact (mem_map_fst_eraseTask.mp hm).2 rfl

/-- C6 witness: removing the active task 0 takes it out of the active
partition, and removing the unknown id 7 is an exact no-op. -/
theorem C6_remove_task_spec_witness :
    0 ∉ ((DynamicProgress.init.run
        [DPOp.start, DPOp.addTask "t" (some 1) 0]).remove_task 0).activeIds ∧
      (DynamicProgress.init.run [DPOp.start]).remove_task 7 =
        DynamicProgress.init.run [DPOp.start] :=
  ⟨(C6_remove_task_spec
      (DynamicProgress.init.run [DPOp.start, DPOp.addTask "t" (some 1) 0])
      0).2.1,
    (C6_remove_task_spec (DynamicProgress.init.run [DPOp.start])
      7).2.2.2.1 (by decide)⟩

/-- C7: with responsive mode disabled, an auto table's expand decision is
the boolean "column count at least the threshold" (so at the default
threshold 5 a 5-column table expands and a 4-column one does not), while an
explicit boolean expand setting is always returned unchanged, whatever the
column count. -/
theorem C7_auto_expand_threshold (theme : ThemeCfg) (w : Nat) (t : Table)
    (hmode : theme.table_responsive_mode = false) :
    (t.expand = ExpandSetting.auto →
      calculate_expand theme w t = ExpandResult.bool
        (decide (theme.table_expand_threshold ≤ t.headers.length))) ∧
    (∀ b, t.expand = ExpandSetting.explicit b →
      calculate_expand theme w t = ExpandResult.bool b) := by
  constructor
  · intro ha
    simp [calculate_expand, ha, hmode]
  · intro b hb
    simp [calculate_expand, hb]

/-- C7 witness: with the default theme a 5-column auto table expands, a
4-column auto table does not, and explicit expand settings win regardless of
column count. -/
theorem C7_auto_expand_threshold_witness :
    calculate_expand defaultTheme 80
        ⟨["A", "B", "C", "D", "E"], ExpandSetting.auto, 40⟩ =
      ExpandResult.bool true ∧
    calculate_expand defaultTheme 80
        ⟨["A", "B", "C", "D"], ExpandSetting.auto, 40⟩ =
      ExpandResult.bool false ∧
    calculate_expand defaultTheme 80
        ⟨["A", "B"], ExpandSetting.explicit true, 40⟩ =
      ExpandResult.bool true ∧
    calculate_expand defaultTheme 80
        ⟨["A", "B", "C", "D", "E", "F", "G", "H"],
          ExpandSetting.explicit false, 40⟩ =
      ExpandResult.bool false :=
  ⟨(C7_auto_expand_threshold defaultTheme 80
      ⟨["A", "B", "C", "D", "E"], ExpandSetting.auto, 40⟩ rfl).1 rfl,
    (C7_auto_expand_threshold defaultTheme 80
      ⟨["A", "B", "C", "D"], ExpandSetting.auto, 40⟩ rfl).1 rfl,
    (C7_auto_expand_threshold defaultTheme 80
      ⟨["A", "B"], ExpandSetting.explicit true, 40⟩ rfl).2 true rfl,
    (C7_auto_expand_threshold defaultTheme 80
      ⟨["A", "B", "C", "D", "E", "F", "G", "H"],
        ExpandSetting.explicit false, 40⟩ rfl).2 false rfl⟩

/-- C8: with responsive mode enabled, an auto table at or above the column
threshold, and sane breakpoints (compact ≤ medium): below the compact
breakpoint it never expands; between compact and medium the result is the
target width min(natural width, width - 4), which is at most width - 4; and
above the medium breakpoint (i.e. at or past the wide breakpoint with the
default configuration) it expands. -/
theorem C8_responsive_breakpoints (theme : ThemeCfg) (w : Nat) (t : Table)
    (hmode : theme.table_responsive_mode = true)
    (hauto : t.expand = ExpandSetting.auto)
    (hcols : theme.table_expand_threshold ≤ t.headers.length)
    (hbp : theme.table_responsive_breakpoints.compact ≤
      theme.table_responsive_breakpoints.medium) :
    (w < theme.table_responsive_breakpoints.compact →
      calculate_expand theme w t = ExpandResult.bool false) ∧
    (theme.table_responsive_breakpoints.compact ≤ w →
      w ≤ theme.table_responsive_breakpoints.medium →
      calculate_expand theme w t =
          ExpandResult.width (min t.naturalWidth (w - 4)) ∧
        min t.naturalWidth (w - 4) ≤ w - 4) ∧
    (theme.table_responsive_breakpoints.medium < w →
      calculate_expand theme w t = ExpandResult.bool true) := by
  refine ⟨fun hc => ?_, fun hc1 hc2 => ⟨?_, Nat.min_le_right _ _⟩,
    fun hw => ?_⟩
  · simp [calculate_expand, hauto, hmode, hc]
  · simp [calculate_expand, hauto, hmode, not_lt.mpr hc1, hc2, hcols]
  · have hnc : ¬ w < theme.table_responsive_breakpoints.compact :=
      not_lt.mpr (le_trans hbp (le_of_lt hw))
    have hnm : ¬ w ≤ theme.table_responsive_breakpoints.medium :=
      not_le.mpr hw
    simp [calculate_expand, hauto, hmode, hnc, hnm, hcols]

/-- C8 witness: a 7-column auto table with responsive mode on and default
breakpoints: at width 50 it does not expand, at width 70 it gets the capped
target width, and at width 120 it expands. -/
theorem C8_responsive_breakpoints_witness :
    calculate_expand ⟨true, defaultBreakpoints, 5⟩ 50
        ⟨["A", "B", "C", "D", "E", "F", "G"], ExpandSetting.auto, 30⟩ =
      ExpandResult.bool false ∧
    calculate_expand ⟨true, defaultBreakpoints, 5⟩ 70
        ⟨["A", "B", "C", "D", "E", "F", "G"], ExpandSetting.auto, 30⟩ =
      ExpandResult.width 30 ∧
    calculate_expand ⟨true, defaultBreakpoints, 5⟩ 120
        ⟨["A", "B", "C", "D", "E", "F", "G"], ExpandSetting.auto, 30⟩ =
      ExpandResult.bool true :=
  ⟨(C8_responsive_breakpoints ⟨true, defaultBreakpoints, 5⟩ 50
      ⟨["A", "B", "C", "D", "E", "F", "G"], ExpandSetting.auto, 30⟩ rfl rfl
      (by decide) (by decide)).1 (by decide),
    ((C8_responsive_breakpoints ⟨true, defaultBreakpoints, 5⟩ 70
      ⟨["A", "B", "C", "D", "E", "F", "G"], ExpandSetting.auto, 30⟩ rfl rfl
      (by decide) (by decide)).2.1 (by decide) (by decide)).1,
    (C8_responsive_breakpoints ⟨true, defaultBreakpoints, 5⟩ 120
      ⟨["A", "B", "C", "D", "E", "F", "G"], ExpandSetting.auto, 30⟩ rfl rfl
      (by decide) (by decide)).2.2 (by decide)⟩

/-- C9: the default console is lazily initialized exactly once: when the
singleton exists, get_console returns that identical instance with the state
untouched, whatever keyword arguments are passed; on an empty cell the first
call creates the instance from its kwargs and stores it; and after an
explicit reset_console the next get_console builds a fresh instance that
honours the new kwargs and is distinct from the previous instance. -/
theorem C9_console_singleton (s : ConsoleState) (c : ConsoleInst)
    (kw kw2 : ConsoleKwargs) (hcur : s.current = some c)
    (hfresh : c.id < s.fresh) :
    get_console kw s = (c, s) ∧
      (∀ n, get_console kw (⟨none, n⟩ : ConsoleState) =
        (⟨n, kw⟩, ⟨some ⟨n, kw⟩, n + 1⟩)) ∧
      (get_console kw2 (reset_console s)).1.kwargs = kw2 ∧
      (get_console kw2 (reset_console s)).1 ≠ c := by
  refine ⟨?_, fun n => rfl, rfl, ?_⟩
  · simp [get_console, hcur]
  · show (⟨s.fresh, kw2⟩ : ConsoleInst) ≠ c
    intro heq
    have hid : s.fresh = c.id := congrArg ConsoleInst.id heq
    omega

/-- C9 witness: with a concrete initialized singleton (id 0, created with
force_terminal = true), a later call with different kwargs returns the same
instance unchanged, and after a reset the next call yields a distinct
instance. -/
theorem C9_console_singleton_witness :
    get_console ⟨some false⟩
        (⟨some ⟨0, ⟨some true⟩⟩, 1⟩ : ConsoleState) =
      (⟨0, ⟨some true⟩⟩, ⟨some ⟨0, ⟨some true⟩⟩, 1⟩) ∧
    (get_console ⟨some false⟩
        (reset_console (⟨some ⟨0, ⟨some true⟩⟩, 1⟩ : ConsoleState))).1 ≠
      ⟨0, ⟨some true⟩⟩ := by
  obtain ⟨h1, -, -, h4⟩ := C9_console_singleton
    (⟨some ⟨0, ⟨some true⟩⟩, 1⟩ : ConsoleState) ⟨0, ⟨some true⟩⟩
    ⟨some false⟩ ⟨some false⟩ rfl (by decide)
  exact ⟨h1, h4⟩

/-- C10: a non-completing update of an active task (for instance a
description-only update, or an advance that leaves completed below total)
succeeds and mutates only the targeted fields of that task: the active id
list is unchanged (the task stays active), the completed list is unchanged,
the task keeps its start time, its total when no total is passed, its
completed counter when neither advance nor completed is passed, its
description when none is passed, and every other task is untouched. -/
theorem C10_update_frame (s : DynamicProgress) (id : Nat) (t0 : Task)
    (a c ta : Option Int) (d : Option String) (now : Nat)
    (hl : lookupTask s.tasks id = some t0)
    (hsc : shouldComplete (applyFields t0 a c ta d) = false) :
    s.update id a c ta d now = .ok
        { s with tasks := replaceTask s.tasks id (applyFields t0 a c ta d) } ∧
      ({ s with tasks := replaceTask s.tasks id (applyFields t0 a c ta d) } :
          DynamicProgress).completed_tasks = s.completed_tasks ∧
      (replaceTask s.tasks id (applyFields t0 a c ta d)).map Prod.fst =
        s.tasks.map Prod.fst ∧
      lookupTask (replaceTask s.tasks id (applyFields t0 a c ta d)) id =
        some (applyFields t0 a c ta d) ∧
      (applyFields t0 a c ta d).start_ms = t0.start_ms ∧
      (ta = none → (applyFields t0 a c ta d).total = t0.total) ∧
      (a = none → c = none →
        (applyFields t0 a c ta d).completed = t0.completed) ∧
      (d = none → (applyFields t0 a c ta d).description = t0.description) ∧
      (∀ j, j ≠ id →
        lookupTask (replaceTask s.tasks id (applyFields t0 a c ta d)) j =
          lookupTask s.tasks j) := by
  refine ⟨?_, rfl, map_fst_replaceTask, lookupTask_replaceTask_self hl, rfl,
    ?_, ?_, ?_, fun j hj => lookupTask_replaceTask_ne hj⟩
  · simp [DynamicProgress.update, hl, hsc]
  · intro h
    subst h
    rfl
  · intro h1 h2
    subst h1
    subst h2
    simp [applyFields]
  · intro h
    subst h
    rfl

/-- C10 witness: a description-only update of the concrete active task 0
(total 100) keeps its total and leaves it findable in the active partition
with the applied fields. -/
theorem C10_update_frame_witness :
    (applyFields ⟨"Original", some 100, 0, 0⟩ none none none
        (some "Updated")).total = some 100 ∧
      lookupTask (replaceTask (DynamicProgress.init.run
          [DPOp.start, DPOp.addTask "Original" (some 100) 0]).tasks 0
          (applyFields ⟨"Original", some 100, 0, 0⟩ none none none
            (some "Updated"))) 0 =
        some (applyFields ⟨"Original", some 100, 0, 0⟩ none none none
          (some "Updated")) := by
  obtain ⟨-, -, -, h4, -, h6, -, -, -⟩ := C10_update_frame
    (DynamicProgress.init.run
      [DPOp.start, DPOp.addTask "Original" (some 100) 0]) 0
    ⟨"Original", some 100, 0, 0⟩ none none none (some "Updated") 3
    (by decide) (by decide)
  exact ⟨h6 rfl, h4⟩

end Chalkbox
